import Mathlib

/-!
# Verification of the link-metadata pipeline of `discord-rich-previews`

Shallow embedding of `src/utils/facebookMetadata.ts` and the rate limiter of
`src/bot.ts`.  JavaScript strings are modelled as lists of UTF-16 code units
(`List Nat`), so that surrogate-pair behaviour of `String.fromCodePoint` is
represented faithfully.  Each concrete regular expression of the source is
embedded as a dedicated scanner with the exact semantics of the JS pattern
(leftmost match, greedy character classes, case-insensitivity where the `i`
flag is present).
-/

/-- A JavaScript string: a list of UTF-16 code units. -/
abbrev JSStr := List Nat

/-- UTF-16 encoding of one Lean character (used to embed string literals). -/
def charUtf16 (c : Char) : List Nat :=
  if c.toNat < 0x10000 then [c.toNat]
  else [0xD800 + (c.toNat - 0x10000) / 0x400, 0xDC00 + (c.toNat - 0x10000) % 0x400]

/-- Embed a Lean string literal as a JS string (list of UTF-16 units). -/
def jstr (s : String) : JSStr :=
  s.data.foldr (fun c acc => charUtf16 c ++ acc) []

/-- ASCII lower-casing of one code unit (JS `/i` canonicalisation for the
ASCII pattern literals used by the source: a non-ASCII unit never matches an
ASCII pattern letter case-insensitively). -/
def toLowerAscii (n : Nat) : Nat :=
  if 65 ≤ n ∧ n ≤ 90 then n + 32 else n

/-- The JS whitespace class: `\s` of JS regexes and `String.prototype.trim`
both use WhiteSpace ∪ LineTerminator. -/
def isJsWs (n : Nat) : Bool :=
  n = 9 || n = 10 || n = 11 || n = 12 || n = 13 || n = 32 || n = 160 ||
  n = 0x1680 || (0x2000 ≤ n && n ≤ 0x200A) || n = 0x2028 || n = 0x2029 ||
  n = 0x202F || n = 0x205F || n = 0x3000 || n = 0xFEFF

/-- Decimal digit code unit (`\d`). -/
def isDecDigit (n : Nat) : Bool := 48 ≤ n && n ≤ 57

/-- Hexadecimal digit code unit (`[0-9a-fA-F]`). -/
def isHexDigit (n : Nat) : Bool :=
  (48 ≤ n && n ≤ 57) || (97 ≤ n && n ≤ 102) || (65 ≤ n && n ≤ 70)

/-- Numeric value of one hexadecimal digit unit. -/
def hexVal (n : Nat) : Nat :=
  if 48 ≤ n ∧ n ≤ 57 then n - 48
  else if 97 ≤ n ∧ n ≤ 102 then n - 87
  else if 65 ≤ n ∧ n ≤ 70 then n - 55
  else 0

/-- `parseInt(ds, 10)` on a run of decimal digits.  (Exact; `parseInt` loses
float precision only above 2^53, where every observable comparison of the
source — against 0xFFFF and 0x10FFFF — is unaffected.) -/
def parseDec (ds : JSStr) : Nat :=
  ds.foldl (fun a d => a * 10 + (d - 48)) 0

/-- `parseInt(hs, 16)` on a run of hexadecimal digits (same exactness note). -/
def parseHex (hs : JSStr) : Nat :=
  hs.foldl (fun a d => a * 16 + hexVal d) 0

/-- The `try String.fromCodePoint(cp) catch { String.fromCharCode(cp > 0xFFFF
? 0xFFFD : cp) }` idiom of the source, on UTF-16 code units.
`String.fromCodePoint` yields one unit for `cp ≤ 0xFFFF`, a surrogate pair up
to `0x10FFFF`, and throws above that, in which case the source substitutes
the replacement character U+FFFD. -/
def fromCodePointJs (cp : Nat) : JSStr :=
  if cp ≤ 0xFFFF then [cp]
  else if cp ≤ 0x10FFFF then
    [0xD800 + (cp - 0x10000) / 0x400, 0xDC00 + (cp - 0x10000) % 0x400]
  else [0xFFFD]

/-- Fuelled scanner for `String.prototype.replace` with a global literal
pattern: leftmost, non-overlapping occurrences replaced, replacement text
not rescanned.  The fuel only bounds the recursion (it never runs out when
it starts at the input length, since every step consumes at least one input
unit); structural recursion on it keeps the function kernel-reducible. -/
def replaceLitF (pat rep : JSStr) : Nat → JSStr → JSStr
  | _, [] => []
  | 0, s => s
  | fuel + 1, c :: rest =>
    if pat ≠ [] ∧ pat.isPrefixOf (c :: rest) then
      rep ++ replaceLitF pat rep fuel ((c :: rest).drop pat.length)
    else
      c :: replaceLitF pat rep fuel rest

/-- `String.prototype.replace` with a global literal pattern. -/
def replaceLit (pat rep : JSStr) (s : JSStr) : JSStr :=
  replaceLitF pat rep s.length s

/-- `String.prototype.replace` with a non-global literal pattern: only the
first occurrence is replaced. -/
def replaceFirstLit (pat rep : JSStr) : JSStr → JSStr
  | [] => []
  | c :: rest =>
    if pat.isPrefixOf (c :: rest) then rep ++ (c :: rest).drop pat.length
    else c :: replaceFirstLit pat rep rest

/-- `String.prototype.includes` on a literal pattern. -/
def containsSub (pat : JSStr) : JSStr → Bool
  | [] => pat.isEmpty
  | c :: rest => pat.isPrefixOf (c :: rest) || containsSub pat rest

/-- Fuelled scanner for the `\s+` → single space global replace of
`cleanEscapeSequences` (fuel as in `replaceLitF`). -/
def collapseWsF : Nat → JSStr → JSStr
  | _, [] => []
  | 0, s => s
  | fuel + 1, c :: rest =>
    if isJsWs c then 32 :: collapseWsF fuel (rest.dropWhile isJsWs)
    else c :: collapseWsF fuel rest

/-- The `\s+` → single space global replace of `cleanEscapeSequences`. -/
def collapseWs (s : JSStr) : JSStr := collapseWsF s.length s

/-- Remove trailing JS whitespace (the right half of `trim`). -/
def trimEnd : JSStr → JSStr
  | [] => []
  | c :: rest =>
    let t := trimEnd rest
    if t.isEmpty && isJsWs c then [] else c :: t

/-- `String.prototype.trim`. -/
def trimJs (s : JSStr) : JSStr := trimEnd (s.dropWhile isJsWs)

/-- `cleanEscapeSequences` of `facebookMetadata.ts` (lines 248-258): the exact
chain of global replaces, then whitespace collapsing, then trim. -/
def cleanEscapeSequences (s : JSStr) : JSStr :=
  trimJs (collapseWs
    (replaceLit [92, 92] [92]
      (replaceLit [92, 39] [39]
        (replaceLit [92, 34] [34]
          (replaceLit [92, 114] []
            (replaceLit [92, 116] [32]
              (replaceLit [92, 110] [32] s)))))))

/-- The `&#x([0-9a-fA-F]+);` (flags `gi`) pass of `decodeHtmlEntities`:
global leftmost scan; on a full match, emit the (possibly fallback) decoded
code point and continue after the `;`. -/
def decodeHexF : Nat → JSStr → JSStr
  | _, [] => []
  | 0, s => s
  | fuel + 1, c :: rest =>
    if c = 38 then
      match rest with
      | 35 :: x :: rest2 =>
        if x = 120 ∨ x = 88 then
          match rest2.dropWhile isHexDigit with
          | 59 :: rest3 =>
            if rest2.takeWhile isHexDigit = [] then c :: decodeHexF fuel (35 :: x :: rest2)
            else fromCodePointJs (parseHex (rest2.takeWhile isHexDigit)) ++ decodeHexF fuel rest3
          | _ => c :: decodeHexF fuel (35 :: x :: rest2)
        else c :: decodeHexF fuel (35 :: x :: rest2)
      | r => c :: decodeHexF fuel r
    else c :: decodeHexF fuel rest

/-- The `&#x...;` pass at full fuel. -/
def decodeHex (s : JSStr) : JSStr := decodeHexF s.length s

/-- The `&#(\d+);` (flag `g`) pass of `decodeHtmlEntities`. -/
def decodeDecF : Nat → JSStr → JSStr
  | _, [] => []
  | 0, s => s
  | fuel + 1, c :: rest =>
    if c = 38 then
      match rest with
      | 35 :: rest2 =>
        match rest2.dropWhile isDecDigit with
        | 59 :: rest3 =>
          if rest2.takeWhile isDecDigit = [] then c :: decodeDecF fuel (35 :: rest2)
          else fromCodePointJs (parseDec (rest2.takeWhile isDecDigit)) ++ decodeDecF fuel rest3
        | _ => c :: decodeDecF fuel (35 :: rest2)
      | r => c :: decodeDecF fuel r
    else c :: decodeDecF fuel rest

/-- The `&#...;` decimal pass at full fuel. -/
def decodeDec (s : JSStr) : JSStr := decodeDecF s.length s

/-- `decodeHtmlEntities` of `facebookMetadata.ts` (lines 265-296): the eight
named-entity global replaces in source order, then the hexadecimal numeric
pass, then the decimal numeric pass. -/
def decodeHtmlEntities (s : JSStr) : JSStr :=
  decodeDec (decodeHex
    (replaceLit (jstr ("&nbsp;")) [32]
      (replaceLit (jstr ("&#39;")) [39]
        (replaceLit (jstr ("&#039;")) [39]
          (replaceLit (jstr ("&apos;")) [39]
            (replaceLit (jstr ("&quot;")) [34]
              (replaceLit (jstr ("&gt;")) [62]
                (replaceLit (jstr ("&lt;")) [60]
                  (replaceLit (jstr ("&amp;")) [38] s)))))))))

/-- Strip a pattern literal case-insensitively from the head of a string
(the `i` flag of the meta-tag regexes); returns the remainder on success. -/
def stripLitCI : JSStr → JSStr → Option JSStr
  | [], s => some s
  | _ :: _, [] => none
  | p :: ps, c :: cs =>
    if toLowerAscii c = toLowerAscii p then stripLitCI ps cs else none

/-- Strip a pattern literal exactly from the head of a string. -/
def stripLit : JSStr → JSStr → Option JSStr
  | [], s => some s
  | _ :: _, [] => none
  | p :: ps, c :: cs => if c = p then stripLit ps cs else none

/-- `\s+`: require at least one JS whitespace unit, consume the maximal run
(greedy; backtracking into the run can never satisfy a non-whitespace
follower, so the maximal run is the unique viable match). -/
def stripWs1 (s : JSStr) : Option JSStr :=
  match s with
  | c :: rest => if isJsWs c then some (rest.dropWhile isJsWs) else none
  | [] => none

/-- `["']`: either quote unit. -/
def stripQuote (s : JSStr) : Option JSStr :=
  match s with
  | 34 :: rest => some rest
  | 39 :: rest => some rest
  | _ => none

/-- Non-quote unit (the `[^"']` class). -/
def notQuote (n : Nat) : Bool := n ≠ 34 && n ≠ 39

/-- Run a position matcher at every index, left to right; the first success
is returned (JS leftmost-match semantics of `String.prototype.match`). -/
def scanFor (f : JSStr → Option JSStr) : JSStr → Option JSStr
  | [] => none
  | c :: rest =>
    match f (c :: rest) with
    | some r => some r
    | none => scanFor f rest

/-- Match `<meta\s+property=["']PROP["']\s+content=["']([^"']+)["']` (flag
`i`) anchored at the head of `s`; returns the content capture.  The greedy
`[^"']+` takes the maximal run of non-quote units and must be non-empty and
followed by a quote. -/
def matchMetaAt (prop : JSStr) (s : JSStr) : Option JSStr :=
  match stripLitCI (jstr ("<meta")) s with
  | none => none
  | some s1 =>
    match stripWs1 s1 with
    | none => none
    | some s2 =>
      match stripLitCI (jstr ("property=")) s2 with
      | none => none
      | some s3 =>
        match stripQuote s3 with
        | none => none
        | some s4 =>
          match stripLitCI prop s4 with
          | none => none
          | some s5 =>
            match stripQuote s5 with
            | none => none
            | some s6 =>
              match stripWs1 s6 with
              | none => none
              | some s7 =>
                match stripLitCI (jstr ("content=")) s7 with
                | none => none
                | some s8 =>
                  match stripQuote s8 with
                  | none => none
                  | some s9 =>
                    let cap := s9.takeWhile notQuote
                    if cap.isEmpty then none
                    else if (s9.dropWhile notQuote).isEmpty then none
                    else some cap

/-- `html.match(/<meta\s+property=["']PROP["']\s+content=["']([^"']+)["']/i)`:
the capture of the leftmost match, if any. -/
def findMeta (prop : JSStr) (html : JSStr) : Option JSStr :=
  scanFor (matchMetaAt prop) html

/-- Match one of the profile-picture JSON patterns anchored at the head:
literal prefix, then the greedy non-empty `([^"]+)` capture, then `"}`. -/
def matchProfileAt (lit : JSStr) (s : JSStr) : Option JSStr :=
  match stripLit lit s with
  | none => none
  | some s1 =>
    let cap := s1.takeWhile (fun n => n ≠ 34)
    if cap.isEmpty then none
    else
      match s1.dropWhile (fun n => n ≠ 34) with
      | 34 :: 125 :: _ => some cap
      | _ => none

/-- The literal prefix of `/,"actors":\[\{"profile_picture":\{"uri":"([^"]+)"\}/`. -/
def profilePat1 : JSStr := jstr (",\"actors\":[\x7b\"profile_picture\":\x7b\"uri\":\"")

/-- The literal prefix of `/"actors":\[\{"profile_picture":\{"uri":"([^"]+)"\}/`. -/
def profilePat2 : JSStr := jstr ("\"actors\":[\x7b\"profile_picture\":\x7b\"uri\":\"")

/-- The literal prefix of `/"profile_picture":\{"uri":"([^"]+)"\}/`. -/
def profilePat3 : JSStr := jstr ("\"profile_picture\":\x7b\"uri\":\"")

/-- The profile-picture pattern loop of `extractMetadataFromHtml` (lines
41-64): the three patterns are tried in order and the first that matches
wins (the loop breaks), each searched leftmost in the whole document. -/
def findProfilePic (html : JSStr) : Option JSStr :=
  match scanFor (matchProfileAt profilePat1) html with
  | some r => some r
  | none =>
    match scanFor (matchProfileAt profilePat2) html with
    | some r => some r
    | none => scanFor (matchProfileAt profilePat3) html

/-- The `\uXXXX` (flags `gi`, exactly four hex digits) decoding pass of the
profile-picture URI; `String.fromCodePoint(parseInt(hex,16))` never throws
here since the value is at most 0xFFFF. -/
def decodeUescapesF : Nat → JSStr → JSStr
  | _, [] => []
  | 0, s => s
  | fuel + 1, c :: rest =>
    if c = 92 then
      match rest with
      | u :: h1 :: h2 :: h3 :: h4 :: rest2 =>
        if (u = 117 ∨ u = 85) ∧ isHexDigit h1 ∧ isHexDigit h2 ∧ isHexDigit h3 ∧ isHexDigit h4 then
          fromCodePointJs (parseHex [h1, h2, h3, h4]) ++ decodeUescapesF fuel rest2
        else c :: decodeUescapesF fuel (u :: h1 :: h2 :: h3 :: h4 :: rest2)
      | r => c :: decodeUescapesF fuel r
    else c :: decodeUescapesF fuel rest

/-- The `\uXXXX` pass at full fuel. -/
def decodeUescapes (s : JSStr) : JSStr := decodeUescapesF s.length s

/-- Decoding of a matched profile-picture URI (lines 51-53): unescape `\/`
to `/`, then decode `\uXXXX` sequences. -/
def decodeProfileUri (s : JSStr) : JSStr :=
  decodeUescapes (replaceLit [92, 47] [47] s)

/-- Match `<title>([^<]+)<\/title>` (flag `i`) anchored at the head. -/
def matchTitleAt (s : JSStr) : Option JSStr :=
  match stripLitCI (jstr ("<title>")) s with
  | none => none
  | some s1 =>
    let cap := s1.takeWhile (fun n => n ≠ 60)
    if cap.isEmpty then none
    else
      match stripLitCI (jstr ("</title>")) (s1.dropWhile (fun n => n ≠ 60)) with
      | some _ => some cap
      | none => none

/-- `html.match(/<title>([^<]+)<\/title>/i)`: leftmost capture. -/
def findTitleTag (html : JSStr) : Option JSStr :=
  scanFor matchTitleAt html

/-- The `FacebookMetadata` record of `facebookMetadata.ts` (lines 4-12); a
missing optional field is `none`, a field set to the empty string is
`some []` (both are falsy in the source's truthiness tests). -/
structure FacebookMetadata where
  title : Option JSStr
  description : Option JSStr
  image : Option JSStr
  thumbnail : Option JSStr
  url : Option JSStr
  siteName : Option JSStr
  type : Option JSStr
deriving DecidableEq

/-- JS truthiness of an optional string field: `undefined` and the empty
string are falsy. -/
def jsTruthy (o : Option JSStr) : Bool :=
  match o with
  | none => false
  | some s => !s.isEmpty

/-- The `a || b` default idiom on an optional string field. -/
def jsOr (o : Option JSStr) (d : JSStr) : JSStr :=
  match o with
  | some s => if s.isEmpty then d else s
  | none => d

/-- The final value of `metadata.title` before the validity gate: the
decoded and cleaned `og:title` capture, with the plain `<title>` fallback
applied when that is absent or empty (lines 20-24 and 84-90). -/
def extractedTitle (html : JSStr) : Option JSStr :=
  let t0 := (findMeta (jstr ("og:title")) html).map
    (fun c => cleanEscapeSequences (decodeHtmlEntities c))
  if jsTruthy t0 then t0
  else
    match findTitleTag html with
    | some c => some (cleanEscapeSequences (decodeHtmlEntities c))
    | none => t0

/-- The value of `metadata.description` (lines 26-30). -/
def extractedDescription (html : JSStr) : Option JSStr :=
  (findMeta (jstr ("og:description")) html).map
    (fun c => cleanEscapeSequences (decodeHtmlEntities c))

/-- The value of `metadata.image` captured from `og:image` (lines 32-36),
before the profile-picture merge. -/
def extractedOgImage (html : JSStr) : Option JSStr :=
  (findMeta (jstr ("og:image")) html).map decodeHtmlEntities

/-- `extractMetadataFromHtml` of `facebookMetadata.ts` (lines 17-99). -/
def extractMetadataFromHtml (html url : JSStr) : Option FacebookMetadata :=
  let title := extractedTitle html
  let description := extractedDescription html
  let image0 := extractedOgImage html
  let profile := (findProfilePic html).map decodeProfileUri
  let thumbnail := profile
  let image :=
    match profile with
    | some pp => if jsTruthy image0 then image0 else some pp
    | none => image0
  let url0 := (findMeta (jstr ("og:url")) html).map decodeHtmlEntities
  let siteName := (findMeta (jstr ("og:site_name")) html).map decodeHtmlEntities
  let type0 := findMeta (jstr ("og:type")) html
  if jsTruthy title || jsTruthy description then
    some ⟨title, description, image, thumbnail, some (jsOr url0 url), siteName, type0⟩
  else none

/-- `String.prototype.endsWith` on a literal pattern. -/
def jsEndsWith (pat s : JSStr) : Bool :=
  s.drop (s.length - pat.length) = pat && pat.length ≤ s.length

/-- `isFacebookUrl` of `facebookMetadata.ts` (lines 301-316).  `new URL` is a
runtime collaborator: its outcome is the input of the embedding — `none`
when the constructor throws (the catch returns `false`), `some hostname`
otherwise.  Hostnames produced by the URL parser are ASCII, so `toLowerCase`
is ASCII lower-casing here. -/
def isFacebookUrl (parsed : Option JSStr) : Bool :=
  match parsed with
  | none => false
  | some host =>
    let hostname := host.map toLowerAscii
    hostname = jstr ("facebook.com") ||
    hostname = jstr ("www.facebook.com") ||
    hostname = jstr ("m.facebook.com") ||
    hostname = jstr ("fb.com") ||
    hostname = jstr ("www.fb.com") ||
    jsEndsWith (jstr (".facebook.com")) hostname

/-- Modelled from the spec (claim C9 wording): the fixed allow-list — the
apex, its `www` and `m` subdomains, the short-domain alias `fb.com` and its
`www` form — or any hostname ending in the `.facebook.com` suffix, all on
the lowercased hostname. -/
def FacebookHostSpec (host : JSStr) : Prop :=
  let hostname := host.map toLowerAscii
  hostname ∈ [jstr ("facebook.com"), jstr ("www.facebook.com"),
    jstr ("m.facebook.com"), jstr ("fb.com"), jstr ("www.fb.com")] ∨
  jstr (".facebook.com") <:+ hostname

/-- One outbound HTTP request issued by the pipeline, as observed at the
`fetchWithTimeout` boundary: request URL, timeout, and which of the two
fixed header sets (desktop or mobile) was sent. -/
structure FetchCall where
  url : JSStr
  timeoutMs : Nat
  mobileHeaders : Bool
deriving DecidableEq

/-- Behaviour of one `fetchWithTimeout` call, supplied by the environment:
the promise resolves with a status and body, rejects with a network error,
or times out (the `AbortError` is rethrown as a timeout `Error` — both
rejections surface as a thrown exception). -/
inductive FetchOutcome where
  | resolves (status : Nat) (body : JSStr)
  | netError
  | timeout
deriving DecidableEq

/-- Behaviour of `cache.get`, supplied by the environment: the call throws,
misses (`null` or the falsy empty string), or returns a cached string whose
`JSON.parse` yields the given outcome (`Except.error` = the parse throws on
malformed JSON).  Both the get-throw and the parse-throw happen inside the
inner `try` of lines 144-152 and degrade to a miss. -/
inductive CacheGetOutcome where
  | throws
  | miss
  | hit (parsed : Except Unit FacebookMetadata)

/-- All collaborator behaviour the pipeline can observe for one invocation. -/
structure PipelineEnv where
  hasCache : Bool
  cacheGet : CacheGetOutcome
  cachePutThrows : Bool
  primary : FetchOutcome
  mobile : FetchOutcome

/-- `Response.ok`: status in the 2xx range. -/
def statusOk (status : Nat) : Bool := 200 ≤ status && status ≤ 299

/-- The anchored share normalisation
`url.replace(/^(https?:\/\/)(m\.|www\.)?(facebook\.com)/, "$1www.$3")`
(line 162); case-sensitive, at most one optional subdomain group. -/
def shareRewriteWith (scheme url : JSStr) : Option JSStr :=
  if scheme.isPrefixOf url then
    let r1 := url.drop scheme.length
    let r2 :=
      if (jstr ("m.")).isPrefixOf r1 then r1.drop 2
      else if (jstr ("www.")).isPrefixOf r1 then r1.drop 4
      else r1
    if (jstr ("facebook.com")).isPrefixOf r2 then
      some (scheme ++ jstr ("www.facebook.com") ++ r2.drop 12)
    else none
  else none

/-- The share-URL normalisation of lines 156-163: applied only when the URL
contains `/share/`. -/
def normalizeShareUrl (url : JSStr) : JSStr :=
  if containsSub (jstr ("/share/")) url then
    match shareRewriteWith (jstr ("https://")) url with
    | some r => r
    | none =>
      match shareRewriteWith (jstr ("http://")) url with
      | some r => r
      | none => url
  else url

/-- The cached metadata the cache-check step returns, if any (lines
142-153): requires a cache binding, a cached truthy string, and a successful
`JSON.parse`; a get-throw or parse-throw is caught and treated as a miss. -/
def cacheHitResult (env : PipelineEnv) : Option FacebookMetadata :=
  if env.hasCache then
    match env.cacheGet with
    | .hit (.ok m) => some m
    | _ => none
  else none

/-- The desktop-headers primary request (lines 166-186). -/
def primaryCall (u : JSStr) : FetchCall := ⟨u, 10000, false⟩

/-- The mobile-headers fallback request (lines 193-205). -/
def mobileCall (u : JSStr) : FetchCall := ⟨u, 10000, true⟩

/-- The body of `fetchFacebookMetadata` (lines 140-238) without the outer
`catch`: `Except.error` is an exception propagating out of the `try`.  The
second component is the list of HTTP requests issued, in order.  The
best-effort cache write (lines 226-236) has its own `try`/`catch`, so its
outcome (`env.cachePutThrows`) cannot influence either component. -/
def pipelineBody (env : PipelineEnv) (url : JSStr) :
    Except Unit (Option FacebookMetadata) × List FetchCall :=
  match cacheHitResult env with
  | some m => (.ok (some m), [])
  | none =>
    let nu := normalizeShareUrl url
    match env.primary with
    | .netError => (.error (), [primaryCall nu])
    | .timeout => (.error (), [primaryCall nu])
    | .resolves st body =>
      if statusOk st then
        (.ok (extractMetadataFromHtml body nu), [primaryCall nu])
      else if st = 400 ∨ st = 403 ∨ st = 401 then
        let mu := replaceFirstLit (jstr ("www.facebook.com")) (jstr ("m.facebook.com")) nu
        match env.mobile with
        | .netError => (.ok none, [primaryCall nu, mobileCall mu])
        | .timeout => (.ok none, [primaryCall nu, mobileCall mu])
        | .resolves mst mbody =>
          if statusOk mst then
            match extractMetadataFromHtml mbody mu with
            | some m => (.ok (some m), [primaryCall nu, mobileCall mu])
            | none => (.ok none, [primaryCall nu, mobileCall mu])
          else (.ok none, [primaryCall nu, mobileCall mu])
      else (.ok none, [primaryCall nu])

/-- `fetchFacebookMetadata` (lines 136-243): the body wrapped in the
pipeline-wide `try`/`catch` that converts any exception to `null`.  The
first component is what the caller observes: `Except.error` would be a
rejection of the returned promise. -/
def fetchFacebookMetadata (env : PipelineEnv) (url : JSStr) :
    Except Unit (Option FacebookMetadata) × List FetchCall :=
  match pipelineBody env url with
  | (.ok r, tr) => (.ok r, tr)
  | (.error _, tr) => (.ok none, tr)

/-- `RATE_LIMIT_MAX_REQUESTS` of `bot.ts` (line 18). -/
def RATE_LIMIT_MAX_REQUESTS : Nat := 10

/-- `RATE_LIMIT_WINDOW_MS` of `bot.ts` (line 19). -/
def RATE_LIMIT_WINDOW_MS : Int := 60000

/-- `Map.prototype.get` on the per-channel timestamp map. -/
def mapGet (m : List (String × List Int)) (k : String) : Option (List Int) :=
  match m with
  | [] => none
  | (k0, v0) :: rest => if k0 = k then some v0 else mapGet rest k

/-- `Map.prototype.set`: replace in place, or append a new entry. -/
def mapSet (m : List (String × List Int)) (k : String) (v : List Int) :
    List (String × List Int) :=
  match m with
  | [] => [(k, v)]
  | (k0, v0) :: rest => if k0 = k then (k, v) :: rest else (k0, v0) :: mapSet rest k v

/-- `isRateLimited` of `bot.ts` (lines 230-246): returns the decision and
the updated `rateLimitTimestamps` map.  `true` = denied. -/
def isRateLimited (m : List (String × List Int)) (now : Int) (channelId : String) :
    Bool × List (String × List Int) :=
  let timestamps := (mapGet m channelId).getD []
  let recentTimestamps := timestamps.filter (fun ts => now - ts < RATE_LIMIT_WINDOW_MS)
  if recentTimestamps.length ≥ RATE_LIMIT_MAX_REQUESTS then (true, m)
  else (false, mapSet m channelId (recentTimestamps ++ [now]))

/-- No JS-whitespace unit at the head (used to state the collapse-and-trim
post-condition of `cleanEscapeSequences`). -/
def headNotWs : JSStr → Bool
  | [] => true
  | c :: _ => !isJsWs c

/-- No JS-whitespace unit at the end. -/
def lastNotWs : JSStr → Bool
  | [] => true
  | [c] => !isJsWs c
  | _ :: c :: rest => lastNotWs (c :: rest)

/-- No two adjacent JS-whitespace units. -/
def noAdjWs : JSStr → Bool
  | [] => true
  | [_] => true
  | a :: b :: rest => !(isJsWs a && isJsWs b) && noAdjWs (b :: rest)

/-- The collapse-and-trim post-condition: every whitespace unit is a plain
space 0x20, no two whitespace units are adjacent, and neither end is
whitespace. -/
def wsCollapsedTrimmed (s : JSStr) : Bool :=
  s.all (fun c => !isJsWs c || c = 32) && noAdjWs s && headNotWs s && lastNotWs s

/-- Helper: filtering drops strictly below the length as soon as one element
fails the predicate. -/
theorem length_filter_lt_of_exists_not {p : Int → Bool} :
    ∀ (l : List Int), (∃ t ∈ l, p t = false) → (l.filter p).length < l.length := by
  intro l h
  induction l with
  | nil => simp at h
  | cons a l ih =>
    rcases h with ⟨t, ht, hpt⟩
    by_cases hpa : p a = true
    · rw [List.filter_cons_of_pos hpa]
      rcases List.mem_cons.mp ht with rfl | htl
      · simp [hpa] at hpt
      · have := ih ⟨t, htl, hpt⟩
        simp only [List.length_cons]
        omega
    · rw [List.filter_cons_of_neg (by simpa using hpa)]
      have := List.length_filter_le p l
      simp only [List.length_cons]
      omega

/-- C1: for every input URL and every behaviour of the cache and HTTP fetch
collaborators (success, non-2xx status, thrown error, timeout, malformed
cached JSON — all values of `PipelineEnv`), `fetchFacebookMetadata` never
raises to its caller: the observable outcome is always `Except.ok` of a
metadata record or `none`. -/
theorem fetchFacebookMetadata_never_raises (env : PipelineEnv) (url : JSStr) :
    ∃ r : Option FacebookMetadata, (fetchFacebookMetadata env url).1 = Except.ok r := by
  unfold fetchFacebookMetadata
  rcases hb : pipelineBody env url with ⟨e, tr⟩
  cases e with
  | ok r => exact ⟨r, by simp⟩
  | error e => exact ⟨none, by simp⟩

/-- C5: the rate-limit check first restricts to the timestamps within the
fixed 60-second window (`now - ts < 60000`); with at least the fixed maximum
of 10 remaining it denies and records nothing, otherwise it records `now`
and admits.  In particular with exactly 10 stored admissions inside the
window the next call denies, and with at most 10 stored admissions of which
one is more than 60 seconds old, the call admits. -/
theorem isRateLimited_spec (m : List (String × List Int)) (now : Int) (ch : String) :
    (RATE_LIMIT_MAX_REQUESTS ≤
        (((mapGet m ch).getD []).filter (fun ts => now - ts < RATE_LIMIT_WINDOW_MS)).length →
      isRateLimited m now ch = (true, m)) ∧
    ((((mapGet m ch).getD []).filter (fun ts => now - ts < RATE_LIMIT_WINDOW_MS)).length <
        RATE_LIMIT_MAX_REQUESTS →
      isRateLimited m now ch = (false, mapSet m ch
        ((((mapGet m ch).getD []).filter (fun ts => now - ts < RATE_LIMIT_WINDOW_MS)) ++ [now]))) ∧
    (((mapGet m ch).getD []).length = 10 →
      (∀ t ∈ (mapGet m ch).getD [], now - t < 60000) →
      (isRateLimited m now ch).1 = true) ∧
    (((mapGet m ch).getD []).length ≤ 10 →
      (∃ t ∈ (mapGet m ch).getD [], 60000 < now - t) →
      (isRateLimited m now ch).1 = false) := by
  refine ⟨?_, ?_, ?_, ?_⟩
  · intro h
    unfold isRateLimited
    rw [if_pos h]
  · intro h
    unfold isRateLimited
    rw [if_neg (by omega)]
  · intro hlen hall
    have hfix : (((mapGet m ch).getD []).filter (fun ts => now - ts < RATE_LIMIT_WINDOW_MS)) =
        (mapGet m ch).getD [] :=
      List.filter_eq_self.mpr (fun a ha => by
        simpa [RATE_LIMIT_WINDOW_MS] using hall a ha)
    unfold isRateLimited
    rw [if_pos (by rw [hfix, hlen]; exact le_refl _)]
  · intro hlen ⟨t, ht, htold⟩
    have hlt : (((mapGet m ch).getD []).filter
        (fun ts => now - ts < RATE_LIMIT_WINDOW_MS)).length < ((mapGet m ch).getD []).length :=
      length_filter_lt_of_exists_not _ ⟨t, ht, by
        simp only [decide_eq_false_iff_not, RATE_LIMIT_WINDOW_MS]
        omega⟩
    unfold isRateLimited
    rw [if_neg (by unfold RATE_LIMIT_MAX_REQUESTS; omega)]

/-- Helper: `Map.set` for one key leaves every other key unchanged. -/
theorem mapGet_mapSet_ne (k k2 : String) (v : List Int) (hne : k2 ≠ k) :
    ∀ m : List (String × List Int), mapGet (mapSet m k v) k2 = mapGet m k2 := by
  intro m
  induction m with
  | nil =>
    simp only [mapSet, mapGet]
    rw [if_neg (fun h => hne h.symm)]
  | cons e rest ih =>
    rcases e with ⟨k0, v0⟩
    by_cases h0 : k0 = k
    · subst h0
      simp only [mapSet, mapGet, if_pos rfl]
      rw [if_neg (fun h => hne h.symm), if_neg (fun h => hne h.symm)]
    · simp [mapSet, mapGet, h0, ih]

/-- C10: a denied rate-limit check leaves the whole timestamp map untouched
(no new timestamp, no pruning of the out-of-window ones), and no call ever
modifies the entry of a different channel. -/
theorem isRateLimited_frame (m : List (String × List Int)) (now : Int) (ch : String) :
    ((isRateLimited m now ch).1 = true → (isRateLimited m now ch).2 = m) ∧
    (∀ ch2, ch2 ≠ ch → mapGet (isRateLimited m now ch).2 ch2 = mapGet m ch2) := by
  by_cases hc : (((mapGet m ch).getD []).filter
      (fun ts => now - ts < RATE_LIMIT_WINDOW_MS)).length ≥ RATE_LIMIT_MAX_REQUESTS
  · have heq : isRateLimited m now ch = (true, m) := by
      unfold isRateLimited
      rw [if_pos hc]
    rw [heq]
    exact ⟨fun _ => rfl, fun ch2 hne => rfl⟩
  · have heq : isRateLimited m now ch = (false, mapSet m ch
        ((((mapGet m ch).getD []).filter (fun ts => now - ts < RATE_LIMIT_WINDOW_MS)) ++ [now])) := by
      unfold isRateLimited
      rw [if_neg hc]
    rw [heq]
    exact ⟨fun h => by simp at h, fun ch2 hne => mapGet_mapSet_ne ch ch2 _ hne m⟩

/-- Helper: `jsEndsWith` agrees with list suffixes. -/
theorem jsEndsWith_iff_suffix (pat s : JSStr) : jsEndsWith pat s = true ↔ pat <:+ s := by
  unfold jsEndsWith
  simp only [Bool.and_eq_true, decide_eq_true_eq]
  constructor
  · rintro ⟨hdrop, hlen⟩
    exact ⟨s.take (s.length - pat.length), by
      conv_rhs => rw [← List.take_append_drop (s.length - pat.length) s]
      rw [hdrop]⟩
  · rintro ⟨t, rfl⟩
    have hlen : (t ++ pat).length - pat.length = t.length := by
      simp [List.length_append]
    rw [hlen]
    exact ⟨List.drop_left t pat, by simp [List.length_append]⟩

/-- C9: the URL classifier returns `false` on a parse failure (the `catch`
branch) and otherwise accepts exactly the fixed allow-list — the apex, its
`www`/`m` subdomains, `fb.com`, `www.fb.com` — or any lowercased hostname
with the `.facebook.com` suffix. -/
theorem isFacebookUrl_spec (parsed : Option JSStr) :
    (parsed = none → isFacebookUrl parsed = false) ∧
    (∀ host, parsed = some host → (isFacebookUrl parsed = true ↔ FacebookHostSpec host)) := by
  constructor
  · rintro rfl
    rfl
  · rintro host rfl
    unfold isFacebookUrl FacebookHostSpec
    simp only [Bool.or_eq_true, decide_eq_true_eq, jsEndsWith_iff_suffix,
      List.mem_cons, List.mem_singleton, List.not_mem_nil, or_false]
    tauto

/-- C9 witness: a mixed-case subdomain hostname is accepted. -/
theorem isFacebookUrl_spec_witness :
    isFacebookUrl (some (jstr ("Web.FaceBook.Com"))) = true :=
  ((isFacebookUrl_spec (some (jstr ("Web.FaceBook.Com")))).2 _ rfl).mpr
    (Or.inr (by decide))

/-- C5 witness: ten in-window admissions deny the next call; once the
earliest admission is more than 60 seconds old, a call admits again. -/
theorem isRateLimited_spec_witness :
    (isRateLimited [("chan", [0, 1, 2, 3, 4, 5, 6, 7, 8, 9])] 50000 "chan").1 = true ∧
    (isRateLimited [("chan", [0, 1, 2, 3, 4, 5, 6, 7, 8, 9])] 70000 "chan").1 = false :=
  ⟨(isRateLimited_spec [("chan", [0, 1, 2, 3, 4, 5, 6, 7, 8, 9])] 50000 "chan").2.2.1
      (by decide) (by decide),
   (isRateLimited_spec [("chan", [0, 1, 2, 3, 4, 5, 6, 7, 8, 9])] 70000 "chan").2.2.2
      (by decide) ⟨0, by decide, by decide⟩⟩

/-- C10 witness: a denied call leaves the map unchanged, and the entry of a
different channel is untouched. -/
theorem isRateLimited_frame_witness :
    (isRateLimited [("a", [0, 1, 2, 3, 4, 5, 6, 7, 8, 9]), ("b", [5])] 50000 "a").2 =
      [("a", [0, 1, 2, 3, 4, 5, 6, 7, 8, 9]), ("b", [5])] ∧
    mapGet (isRateLimited [("a", [0, 1, 2, 3, 4, 5, 6, 7, 8, 9]), ("b", [5])] 50000 "a").2 "b" =
      mapGet [("a", [0, 1, 2, 3, 4, 5, 6, 7, 8, 9]), ("b", [5])] "b" :=
  ⟨(isRateLimited_frame [("a", [0, 1, 2, 3, 4, 5, 6, 7, 8, 9]), ("b", [5])] 50000 "a").1
      (by decide),
   (isRateLimited_frame [("a", [0, 1, 2, 3, 4, 5, 6, 7, 8, 9]), ("b", [5])] 50000 "a").2
      "b" (by decide)⟩

/-- C6 counterexample: the source removes a literal `\r` outright
(`.replace(/\\r/g, "")`), it does not collapse it into whitespace — on
`"a\rb"` (four units) the claimed behaviour would give `"a b"`, the code
gives `"ab"`. -/
theorem cleanEscapeSequences_cr_counterexample :
    cleanEscapeSequences (jstr ("a\\rb")) = jstr ("ab") ∧ jstr ("ab") ≠ jstr ("a b") := by
  decide

/-- C7 counterexample: entity decoding is not idempotent on every string —
`"&amp;amp;"` decodes to `"&amp;"`, which decodes again to `"&"`. -/
theorem decodeHtmlEntities_not_idempotent :
    decodeHtmlEntities (decodeHtmlEntities (jstr ("&amp;amp;"))) ≠
      decodeHtmlEntities (jstr ("&amp;amp;")) := by
  decide

/-- C4 counterexample: for a primary 403 on an apex-host URL the fallback
fetch reuses the URL unchanged — `.replace(/www\.facebook\.com/, ...)` finds
nothing to rewrite — so the additional fetch is not on the mobile subdomain
as the claim states (its URL does not even start with `https://m.`). -/
theorem mobile_fallback_host_counterexample :
    ((fetchFacebookMetadata ⟨false, .miss, false, .resolves 403 [], .netError⟩
        (jstr ("https://facebook.com/p"))).2.map FetchCall.url =
      [jstr ("https://facebook.com/p"), jstr ("https://facebook.com/p")]) ∧
    (jstr ("https://m.")).isPrefixOf (jstr ("https://facebook.com/p")) = false := by
  decide

/-- Helper: `String.fromCodePoint` (with the source's fallback) never yields
the empty string. -/
theorem fromCodePointJs_ne_nil (cp : Nat) : fromCodePointJs cp ≠ [] := by
  unfold fromCodePointJs
  split
  · simp
  · split <;> simp

/-- Helper: a literal global replace with a non-empty replacement preserves
non-emptiness. -/
theorem replaceLit_ne_nil (pat rep : JSStr) (hrep : rep ≠ []) (s : JSStr) (hs : s ≠ []) :
    replaceLit pat rep s ≠ [] := by
  rcases s with _ | ⟨c, rest⟩
  · exact absurd rfl hs
  · unfold replaceLit
    simp only [List.length_cons, replaceLitF]
    split
    · simp [hrep]
    · simp

/-- Helper: the hexadecimal numeric pass preserves non-emptiness. -/
theorem decodeHex_ne_nil (s : JSStr) (hs : s ≠ []) : decodeHex s ≠ [] := by
  rcases s with _ | ⟨c, rest⟩
  · exact absurd rfl hs
  · unfold decodeHex
    simp only [List.length_cons, decodeHexF]
    repeat' split
    all_goals simp [fromCodePointJs_ne_nil]

/-- Helper: the decimal numeric pass preserves non-emptiness. -/
theorem decodeDec_ne_nil (s : JSStr) (hs : s ≠ []) : decodeDec s ≠ [] := by
  rcases s with _ | ⟨c, rest⟩
  · exact absurd rfl hs
  · unfold decodeDec
    simp only [List.length_cons, decodeDecF]
    repeat' split
    all_goals simp [fromCodePointJs_ne_nil]

/-- Helper: entity decoding of a non-empty string is non-empty (every
replacement the source performs is non-empty). -/
theorem decodeHtmlEntities_ne_nil (s : JSStr) (hs : s ≠ []) : decodeHtmlEntities s ≠ [] := by
  unfold decodeHtmlEntities
  apply decodeDec_ne_nil
  apply decodeHex_ne_nil
  repeat
    apply replaceLit_ne_nil _ _ (by simp)
  exact hs

/-- Helper: a successful scan comes from a successful position match. -/
theorem scanFor_some (f : JSStr → Option JSStr) :
    ∀ (s r : JSStr), scanFor f s = some r → ∃ t, f t = some r := by
  intro s
  induction s with
  | nil => intro r h; simp [scanFor] at h
  | cons c rest ih =>
    intro r h
    rw [scanFor] at h
    rcases hf : f (c :: rest) with _ | v
    · rw [hf] at h
      exact ih r h
    · rw [hf] at h
      simp only [] at h
      exact ⟨c :: rest, by rw [hf, h]⟩

/-- Helper: the meta-tag matcher only returns a non-empty capture. -/
theorem matchMetaAt_ne_nil (prop s cap : JSStr) (h : matchMetaAt prop s = some cap) :
    cap ≠ [] := by
  unfold matchMetaAt at h
  repeat' split at h
  all_goals simp_all [List.isEmpty_iff]
  obtain ⟨⟨hlen, hq⟩, hcap⟩ := h
  intro hc
  rw [hc] at hcap
  have hnil := List.takeWhile_eq_nil_iff.mp hcap hlen
  simp_all

/-- Helper: a `findMeta` capture is non-empty (the `([^"']+)` group). -/
theorem findMeta_ne_nil (prop html cap : JSStr) (h : findMeta prop html = some cap) :
    cap ≠ [] := by
  obtain ⟨t, ht⟩ := scanFor_some _ _ _ h
  exact matchMetaAt_ne_nil prop t cap ht

/-- Helper: resolution of the `metadata.url || url` default against the
`og:url` extraction. -/
theorem jsOr_ogUrl (html url : JSStr) :
    jsOr ((findMeta (jstr ("og:url")) html).map decodeHtmlEntities) url =
      (match findMeta (jstr ("og:url")) html with
       | some c => decodeHtmlEntities c
       | none => url) := by
  rcases hf : findMeta (jstr ("og:url")) html with _ | c
  · rfl
  · have hne : decodeHtmlEntities c ≠ [] :=
      decodeHtmlEntities_ne_nil c (findMeta_ne_nil _ _ _ hf)
    simp [jsOr, List.isEmpty_iff, hne]

/-- C2: extraction returns none unless the extracted title or description is
non-empty (the `metadata.title || metadata.description` gate), and a
returned record's `url` field is the decoded `og:url` capture when one
matched, and the `sourceUrl` argument otherwise. -/
theorem extractMetadataFromHtml_gate_and_url (html url : JSStr) :
    (jsTruthy (extractedTitle html) = false → jsTruthy (extractedDescription html) = false →
      extractMetadataFromHtml html url = none) ∧
    (∀ m, extractMetadataFromHtml html url = some m →
      (jsTruthy m.title || jsTruthy m.description) = true ∧
      m.url = some (match findMeta (jstr ("og:url")) html with
        | some c => decodeHtmlEntities c
        | none => url)) := by
  constructor
  · intro ht hd
    unfold extractMetadataFromHtml
    rw [if_neg]
    rw [ht, hd]
    simp
  · intro m hm
    simp only [extractMetadataFromHtml] at hm
    split at hm
    · rename_i hcond
      rw [Option.some.injEq] at hm
      subst hm
      exact ⟨hcond, by rw [← jsOr_ogUrl html url]⟩
    · exact absurd hm (by simp)

/-- C2 witness: a document with only an `og:title` passes the gate, and the
record's `url` falls back to the source URL. -/
theorem extractMetadataFromHtml_gate_and_url_witness :
    extractMetadataFromHtml
        (jstr ("<meta property=\"og:title\" content=\"T\">")) (jstr ("src")) =
      some ⟨some [84], none, none, none, some (jstr ("src")), none, none⟩ ∧
    ((jsTruthy (some ([84] : JSStr)) || jsTruthy (none : Option JSStr)) = true ∧
      (some (jstr ("src")) : Option JSStr) =
        some (match findMeta (jstr ("og:url"))
            (jstr ("<meta property=\"og:title\" content=\"T\">")) with
          | some c => decodeHtmlEntities c
          | none => jstr ("src"))) :=
  ⟨by decide,
   (extractMetadataFromHtml_gate_and_url
      (jstr ("<meta property=\"og:title\" content=\"T\">")) (jstr ("src"))).2
    ⟨some [84], none, none, none, some (jstr ("src")), none, none⟩ (by decide)⟩

/-- C3: when a profile-picture URI matches, the returned record's
`thumbnail` is the decoded URI, and `image` is the decoded URI exactly when
no `og:image` was captured, and the decoded `og:image` content otherwise
(the `if (!metadata.image)` merge). -/
theorem extractMetadataFromHtml_thumbnail_image (html url : JSStr) (m : FacebookMetadata)
    (p : JSStr) (hm : extractMetadataFromHtml html url = some m)
    (hp : findProfilePic html = some p) :
    m.thumbnail = some (decodeProfileUri p) ∧
    m.image = some (match findMeta (jstr ("og:image")) html with
      | some c => decodeHtmlEntities c
      | none => decodeProfileUri p) := by
  simp only [extractMetadataFromHtml] at hm
  split at hm
  · rw [Option.some.injEq] at hm
    subst hm
    constructor
    · simp [hp]
    · rcases hi : findMeta (jstr ("og:image")) html with _ | c
      · simp [hp, hi, extractedOgImage, jsTruthy]
      · have hne : decodeHtmlEntities c ≠ [] :=
          decodeHtmlEntities_ne_nil c (findMeta_ne_nil _ _ _ hi)
        simp [hp, hi, extractedOgImage, jsTruthy, List.isEmpty_iff, hne]
  · exact absurd hm (by simp)

/-- C3 witness: a fixture with `og:title`, `og:image` and a profile-picture
JSON yields `thumbnail` = the profile URI and `image` = the `og:image`
content (not merged). -/
theorem extractMetadataFromHtml_thumbnail_image_witness :
    extractMetadataFromHtml
        (jstr ("<meta property=\"og:title\" content=\"T\"><meta property=\"og:image\" content=\"I\">\"profile_picture\":\x7b\"uri\":\"P\"\x7d"))
        (jstr ("u")) =
      some ⟨some [84], none, some [73], some [80], some (jstr ("u")), none, none⟩ ∧
    findProfilePic
        (jstr ("<meta property=\"og:title\" content=\"T\"><meta property=\"og:image\" content=\"I\">\"profile_picture\":\x7b\"uri\":\"P\"\x7d")) =
      some [80] ∧
    ((some ([80] : JSStr) : Option JSStr) = some (decodeProfileUri [80]) ∧
      (some ([73] : JSStr) : Option JSStr) =
        some (match findMeta (jstr ("og:image"))
            (jstr ("<meta property=\"og:title\" content=\"T\"><meta property=\"og:image\" content=\"I\">\"profile_picture\":\x7b\"uri\":\"P\"\x7d")) with
          | some c => decodeHtmlEntities c
          | none => decodeProfileUri [80])) :=
  ⟨by decide, by decide,
   extractMetadataFromHtml_thumbnail_image
     (jstr ("<meta property=\"og:title\" content=\"T\"><meta property=\"og:image\" content=\"I\">\"profile_picture\":\x7b\"uri\":\"P\"\x7d"))
     (jstr ("u"))
     ⟨some [84], none, some [73], some [80], some (jstr ("u")), none, none⟩
     [80] (by decide) (by decide)⟩

/-- C4 (amended): when the cache does not hit and the primary fetch resolves
with a status in the fixed blocked set {400, 401, 403}, the pipeline issues
exactly one additional fetch, with mobile headers and the same 10-second
timeout, whose URL is the primary URL with its first `www.facebook.com`
occurrence replaced by `m.facebook.com` (the URL is reused unchanged when it
contains no `www.facebook.com`); on mobile 2xx it extracts from the mobile
body, on mobile throw/timeout/non-2xx it resolves to none; on any other
non-2xx primary status it resolves to none after the single primary fetch. -/
theorem fetchFacebookMetadata_mobile_fallback (env : PipelineEnv) (url : JSStr)
    (hc : cacheHitResult env = none) :
    (∀ st body, env.primary = .resolves st body → (st = 400 ∨ st = 401 ∨ st = 403) →
      (fetchFacebookMetadata env url).2 =
        [primaryCall (normalizeShareUrl url),
         mobileCall (replaceFirstLit (jstr ("www.facebook.com")) (jstr ("m.facebook.com"))
           (normalizeShareUrl url))] ∧
      (fetchFacebookMetadata env url).1 = .ok (match env.mobile with
        | .resolves mst mbody =>
          if statusOk mst then
            extractMetadataFromHtml mbody
              (replaceFirstLit (jstr ("www.facebook.com")) (jstr ("m.facebook.com"))
                (normalizeShareUrl url))
          else none
        | _ => none)) ∧
    (∀ st body, env.primary = .resolves st body → statusOk st = false →
      ¬(st = 400 ∨ st = 401 ∨ st = 403) →
      (fetchFacebookMetadata env url).2 = [primaryCall (normalizeShareUrl url)] ∧
      (fetchFacebookMetadata env url).1 = .ok none) := by
  constructor
  · intro st body hp hst
    have hok : statusOk st = false := by
      unfold statusOk
      rcases hst with rfl | rfl | rfl <;> decide
    have hblocked : (st = 400 ∨ st = 403 ∨ st = 401) := by tauto
    unfold fetchFacebookMetadata pipelineBody
    rw [hc, hp]
    dsimp only
    rw [hok]
    simp only [Bool.false_eq_true, if_false, if_pos hblocked]
    rcases env.mobile with ⟨mst, mbody⟩ | _ | _
    · dsimp only
      rcases hmok : statusOk mst with _ | _
      · simp only [Bool.false_eq_true, if_false]
        exact ⟨by trivial, by trivial⟩
      · simp only [if_true]
        rcases hx : extractMetadataFromHtml mbody
            (replaceFirstLit (jstr ("www.facebook.com")) (jstr ("m.facebook.com"))
              (normalizeShareUrl url)) with _ | mm
        · simp only [hx]
          exact ⟨by trivial, by trivial⟩
        · simp only [hx]
          exact ⟨by trivial, by trivial⟩
    · exact ⟨by trivial, by trivial⟩
    · exact ⟨by trivial, by trivial⟩
  · intro st body hp hok hnb
    have hblocked : ¬(st = 400 ∨ st = 403 ∨ st = 401) := by tauto
    unfold fetchFacebookMetadata pipelineBody
    rw [hc, hp]
    dsimp only
    rw [hok]
    simp only [Bool.false_eq_true, if_false, if_neg hblocked]
    exact ⟨by trivial, by trivial⟩

/-- C4 witness: a primary 403 on a `www` URL triggers exactly one mobile
fetch at the `m.facebook.com` rewrite with the same timeout; the failing
mobile fetch resolves the pipeline to none. -/
theorem fetchFacebookMetadata_mobile_fallback_witness :
    cacheHitResult ⟨false, .miss, false, .resolves 403 [], .netError⟩ = none ∧
    ((fetchFacebookMetadata ⟨false, .miss, false, .resolves 403 [], .netError⟩
        (jstr ("https://www.facebook.com/p"))).2 =
      [primaryCall (normalizeShareUrl (jstr ("https://www.facebook.com/p"))),
       mobileCall (replaceFirstLit (jstr ("www.facebook.com")) (jstr ("m.facebook.com"))
         (normalizeShareUrl (jstr ("https://www.facebook.com/p"))))] ∧
     (fetchFacebookMetadata ⟨false, .miss, false, .resolves 403 [], .netError⟩
        (jstr ("https://www.facebook.com/p"))).1 = .ok none) :=
  ⟨rfl,
   (fetchFacebookMetadata_mobile_fallback ⟨false, .miss, false, .resolves 403 [], .netError⟩
      (jstr ("https://www.facebook.com/p")) rfl).1 403 [] rfl (Or.inr (Or.inr rfl))⟩

/-- Helper: a global replace whose pattern starts with `&` is the identity
on a string with no `&` unit. -/
theorem replaceLitF_amp_id (pat2 rep : JSStr) :
    ∀ (fuel : Nat) (s : JSStr), s.length ≤ fuel → (38 : Nat) ∉ s →
      replaceLitF (38 :: pat2) rep fuel s = s := by
  intro fuel
  induction fuel with
  | zero =>
    intro s hlen hs
    rcases s with _ | ⟨c, rest⟩
    · rfl
    · simp at hlen
  | succ fuel ih =>
    intro s hlen hs
    rcases s with _ | ⟨c, rest⟩
    · rfl
    · have hc : c ≠ 38 := fun hh => hs (by simp [hh])
      rw [replaceLitF, if_neg]
      · rw [ih rest (by simpa using hlen) (fun hh => hs (by simp [hh]))]
      · rintro ⟨-, hpre⟩
        simp only [List.isPrefixOf, Bool.and_eq_true, beq_iff_eq] at hpre
        exact hc hpre.1.symm

/-- Helper: the hexadecimal numeric pass is the identity without `&`. -/
theorem decodeHexF_noAmp_id :
    ∀ (fuel : Nat) (s : JSStr), s.length ≤ fuel → (38 : Nat) ∉ s →
      decodeHexF fuel s = s := by
  intro fuel
  induction fuel with
  | zero =>
    intro s hlen hs
    rcases s with _ | ⟨c, rest⟩
    · rfl
    · simp at hlen
  | succ fuel ih =>
    intro s hlen hs
    rcases s with _ | ⟨c, rest⟩
    · rfl
    · have hc : c ≠ 38 := fun hh => hs (by simp [hh])
      rw [decodeHexF.eq_def]
      dsimp only
      rw [if_neg hc, ih rest (by simpa using hlen) (fun hh => hs (by simp [hh]))]

/-- Helper: the decimal numeric pass is the identity without `&`. -/
theorem decodeDecF_noAmp_id :
    ∀ (fuel : Nat) (s : JSStr), s.length ≤ fuel → (38 : Nat) ∉ s →
      decodeDecF fuel s = s := by
  intro fuel
  induction fuel with
  | zero =>
    intro s hlen hs
    rcases s with _ | ⟨c, rest⟩
    · rfl
    · simp at hlen
  | succ fuel ih =>
    intro s hlen hs
    rcases s with _ | ⟨c, rest⟩
    · rfl
    · have hc : c ≠ 38 := fun hh => hs (by simp [hh])
      rw [decodeDecF.eq_def]
      dsimp only
      rw [if_neg hc, ih rest (by simpa using hlen) (fun hh => hs (by simp [hh]))]

/-- Helper: `replaceLit` wrapper of `replaceLitF_amp_id`. -/
theorem replaceLit_amp_id (pat2 rep s : JSStr) (h : (38 : Nat) ∉ s) :
    replaceLit (38 :: pat2) rep s = s :=
  replaceLitF_amp_id pat2 rep s.length s (le_refl _) h

/-- C7 (amended): entity decoding is the identity — hence idempotent — on
every string containing no `&` unit (every pattern the decoder rewrites
starts with `&`); on strings with entity text it can strictly decrease, so
the unrestricted idempotence of the claim fails
(see the `&amp;amp;` counterexample). -/
theorem decodeHtmlEntities_idempotent_noAmp (x : JSStr) (h : (38 : Nat) ∉ x) :
    decodeHtmlEntities x = x ∧
    decodeHtmlEntities (decodeHtmlEntities x) = decodeHtmlEntities x := by
  have h1 : decodeHtmlEntities x = x := by
    unfold decodeHtmlEntities
    have e1 : jstr ("&amp;") = 38 :: [97, 109, 112, 59] := by decide
    have e2 : jstr ("&lt;") = 38 :: [108, 116, 59] := by decide
    have e3 : jstr ("&gt;") = 38 :: [103, 116, 59] := by decide
    have e4 : jstr ("&quot;") = 38 :: [113, 117, 111, 116, 59] := by decide
    have e5 : jstr ("&apos;") = 38 :: [97, 112, 111, 115, 59] := by decide
    have e6 : jstr ("&#039;") = 38 :: [35, 48, 51, 57, 59] := by decide
    have e7 : jstr ("&#39;") = 38 :: [35, 51, 57, 59] := by decide
    have e8 : jstr ("&nbsp;") = 38 :: [110, 98, 115, 112, 59] := by decide
    rw [e1, e2, e3, e4, e5, e6, e7, e8]
    rw [replaceLit_amp_id _ _ x h, replaceLit_amp_id _ _ x h, replaceLit_amp_id _ _ x h,
      replaceLit_amp_id _ _ x h, replaceLit_amp_id _ _ x h, replaceLit_amp_id _ _ x h,
      replaceLit_amp_id _ _ x h, replaceLit_amp_id _ _ x h]
    unfold decodeHex decodeDec
    rw [decodeHexF_noAmp_id x.length x (le_refl _) h,
      decodeDecF_noAmp_id x.length x (le_refl _) h]
  exact ⟨h1, by rw [h1, h1]⟩

/-- C7 witness: a plain word is a fixed point of decoding, so decoding it
twice equals decoding it once. -/
theorem decodeHtmlEntities_idempotent_noAmp_witness :
    (38 : Nat) ∉ jstr ("hello") ∧
    (decodeHtmlEntities (jstr ("hello")) = jstr ("hello") ∧
      decodeHtmlEntities (decodeHtmlEntities (jstr ("hello"))) =
        decodeHtmlEntities (jstr ("hello"))) :=
  ⟨by decide, decodeHtmlEntities_idempotent_noAmp (jstr ("hello")) (by decide)⟩

/-- Helper: after dropping leading whitespace, the head is not whitespace. -/
theorem headNotWs_dropWhile : ∀ s : JSStr, headNotWs (s.dropWhile isJsWs) = true := by
  intro s
  induction s with
  | nil => rfl
  | cons c rest ih =>
    by_cases hws : isJsWs c
    · rw [List.dropWhile_cons_of_pos hws]
      exact ih
    · rw [List.dropWhile_cons_of_neg hws]
      simp [headNotWs, hws]

/-- Helper: `noAdjWs` restricts to the tail. -/
theorem noAdjWs_tail (c : Nat) (rest : JSStr) (h : noAdjWs (c :: rest) = true) :
    noAdjWs rest = true := by
  rcases rest with _ | ⟨d, r2⟩
  · rfl
  · rw [noAdjWs, Bool.and_eq_true] at h
    exact h.2

/-- Helper: `noAdjWs` is preserved by `dropWhile`. -/
theorem noAdjWs_dropWhile (p : Nat → Bool) :
    ∀ s : JSStr, noAdjWs s = true → noAdjWs (s.dropWhile p) = true := by
  intro s
  induction s with
  | nil => intro h; exact h
  | cons c rest ih =>
    intro h
    by_cases hp : p c
    · rw [List.dropWhile_cons_of_pos hp]
      exact ih (noAdjWs_tail c rest h)
    · rw [List.dropWhile_cons_of_neg hp]
      exact h

/-- Helper: every whitespace unit the collapsing pass outputs is 0x20. -/
theorem collapseWsF_all32 :
    ∀ (fuel : Nat) (s : JSStr), s.length ≤ fuel →
      ∀ c ∈ collapseWsF fuel s, isJsWs c = true → c = 32 := by
  intro fuel
  induction fuel with
  | zero =>
    intro s hlen c hc
    rcases s with _ | ⟨a, rest⟩
    · simp [collapseWsF] at hc
    · simp at hlen
  | succ fuel ih =>
    intro s hlen c hc hws
    rcases s with _ | ⟨a, rest⟩
    · simp [collapseWsF] at hc
    · rw [collapseWsF] at hc
      by_cases ha : isJsWs a
      · rw [if_pos ha] at hc
        rcases List.mem_cons.mp hc with rfl | hmem
        · rfl
        · exact ih (rest.dropWhile isJsWs)
            (le_trans (List.dropWhile_suffix isJsWs).length_le (by simpa using hlen))
            c hmem hws
      · rw [if_neg ha] at hc
        rcases List.mem_cons.mp hc with rfl | hmem
        · exact absurd hws (by simpa using ha)
        · exact ih rest (by simpa using hlen) c hmem hws

/-- Helper: the collapsing pass never outputs two adjacent whitespace units,
and preserves a non-whitespace head. -/
theorem collapseWsF_noAdj :
    ∀ (fuel : Nat) (s : JSStr), s.length ≤ fuel →
      noAdjWs (collapseWsF fuel s) = true ∧
      (headNotWs s = true → headNotWs (collapseWsF fuel s) = true) := by
  intro fuel
  induction fuel with
  | zero =>
    intro s hlen
    rcases s with _ | ⟨a, rest⟩
    · exact ⟨rfl, fun _ => rfl⟩
    · simp at hlen
  | succ fuel ih =>
    intro s hlen
    rcases s with _ | ⟨a, rest⟩
    · exact ⟨rfl, fun _ => rfl⟩
    · rw [collapseWsF]
      by_cases ha : isJsWs a
      · rw [if_pos ha]
        have hlen2 : (rest.dropWhile isJsWs).length ≤ fuel :=
          le_trans (List.dropWhile_suffix isJsWs).length_le (by simpa using hlen)
        obtain ⟨iha, ihh⟩ := ih (rest.dropWhile isJsWs) hlen2
        have hout : headNotWs (collapseWsF fuel (rest.dropWhile isJsWs)) = true :=
          ihh (headNotWs_dropWhile rest)
        constructor
        · rcases hout2 : collapseWsF fuel (rest.dropWhile isJsWs) with _ | ⟨d, t2⟩
          · rfl
          · rw [noAdjWs, Bool.and_eq_true]
            rw [hout2] at iha hout
            simp only [headNotWs, Bool.not_eq_true] at hout
            exact ⟨by simp [hout], iha⟩
        · intro hhs
          rw [headNotWs, ha] at hhs
          simp at hhs
      · rw [if_neg ha]
        obtain ⟨iha, _⟩ := ih rest (by simpa using hlen)
        constructor
        · rcases hout2 : collapseWsF fuel rest with _ | ⟨d, t2⟩
          · simp [noAdjWs, headNotWs, ha]
          · rw [noAdjWs, Bool.and_eq_true]
            rw [hout2] at iha
            exact ⟨by simp [ha], iha⟩
        · intro _
          simp [headNotWs, ha]

/-- Helper: `trimEnd` only keeps units of its input. -/
theorem trimEnd_subset : ∀ (s : JSStr) (c : Nat), c ∈ trimEnd s → c ∈ s := by
  intro s
  induction s with
  | nil => intro c hc; simp [trimEnd] at hc
  | cons a rest ih =>
    intro c hc
    rw [trimEnd] at hc
    split at hc
    · simp at hc
    · rcases List.mem_cons.mp hc with rfl | hmem
      · exact List.mem_cons_self _ _
      · exact List.mem_cons_of_mem _ (ih c hmem)

/-- Helper: `trimEnd` preserves a non-whitespace head. -/
theorem trimEnd_headNotWs (s : JSStr) (h : headNotWs s = true) :
    headNotWs (trimEnd s) = true := by
  rcases s with _ | ⟨a, rest⟩
  · rfl
  · rw [trimEnd]
    split
    · rfl
    · exact h

/-- Helper: `trimEnd` removes all trailing whitespace. -/
theorem trimEnd_lastNotWs : ∀ s : JSStr, lastNotWs (trimEnd s) = true := by
  intro s
  induction s with
  | nil => rfl
  | cons a rest ih =>
    rw [trimEnd]
    split
    · rfl
    · rename_i hcond
      rcases ht : trimEnd rest with _ | ⟨d, t2⟩
      · rw [ht] at hcond
        simp only [List.isEmpty_nil, Bool.true_and, Bool.not_eq_true] at hcond
        simp [lastNotWs, hcond]
      · rw [lastNotWs]
        rw [ht] at ih
        exact ih

/-- Helper: `trimEnd` preserves `noAdjWs`. -/
theorem trimEnd_noAdj : ∀ s : JSStr, noAdjWs s = true → noAdjWs (trimEnd s) = true := by
  intro s
  induction s with
  | nil => intro h; exact h
  | cons a rest ih =>
    intro h
    rw [trimEnd]
    split
    · rfl
    · rcases ht : trimEnd rest with _ | ⟨d, t2⟩
      · rfl
      · rw [noAdjWs, Bool.and_eq_true]
        have hrest := ih (noAdjWs_tail a rest h)
        rw [ht] at hrest
        refine ⟨?_, hrest⟩
        rcases rest with _ | ⟨b, r2⟩
        · simp [trimEnd] at ht
        · have hd : d = b := by
            rw [trimEnd] at ht
            split at ht
            · simp at ht
            · exact (List.cons.injEq _ _ _ _ ▸ ht).1.symm
          subst hd
          rw [noAdjWs, Bool.and_eq_true] at h
          exact h.1

/-- Helper: collapsing then trimming establishes the full whitespace
post-condition. -/
theorem trimJs_collapseWs_post (z : JSStr) : wsCollapsedTrimmed (trimJs (collapseWs z)) = true := by
  unfold trimJs collapseWs
  have h0 := collapseWsF_noAdj z.length z (le_refl _)
  have h32 := collapseWsF_all32 z.length z (le_refl _)
  have hnadj1 : noAdjWs ((collapseWsF z.length z).dropWhile isJsWs) = true :=
    noAdjWs_dropWhile isJsWs _ h0.1
  have hhead1 : headNotWs ((collapseWsF z.length z).dropWhile isJsWs) = true :=
    headNotWs_dropWhile _
  unfold wsCollapsedTrimmed
  rw [Bool.and_eq_true, Bool.and_eq_true, Bool.and_eq_true]
  refine ⟨⟨⟨?_, trimEnd_noAdj _ hnadj1⟩, trimEnd_headNotWs _ hhead1⟩, trimEnd_lastNotWs _⟩
  rw [List.all_eq_true]
  intro c hc
  have hc1 : c ∈ (collapseWsF z.length z).dropWhile isJsWs := trimEnd_subset _ c hc
  have hc2 : c ∈ collapseWsF z.length z :=
    (List.dropWhile_suffix isJsWs).sublist.subset hc1
  by_cases hws : isJsWs c
  · simp [hws, h32 c hc2 hws]
  · simp [hws]

/-- C6 (amended): `cleanEscapeSequences` turns the literal escapes `\n` and
`\t` into whitespace and removes `\r` outright (rather than turning it into
whitespace as the claim stated), unescapes `\"`, `\'` and `\\`, collapses
every whitespace run to a single plain space, trims both ends, and is a
pure total function. -/
theorem cleanEscapeSequences_amended :
    (∀ s : JSStr, wsCollapsedTrimmed (cleanEscapeSequences s) = true) ∧
    cleanEscapeSequences (jstr ("x\\ny")) = jstr ("x y") ∧
    cleanEscapeSequences (jstr ("x\\ty")) = jstr ("x y") ∧
    cleanEscapeSequences (jstr ("x\\ry")) = jstr ("xy") ∧
    cleanEscapeSequences (jstr ("x\\\"y")) = jstr ("x\"y") ∧
    cleanEscapeSequences [120, 92, 39, 121] = [120, 39, 121] ∧
    cleanEscapeSequences (jstr ("x\\\\y")) = [120, 92, 121] ∧
    cleanEscapeSequences (jstr ("  a  b ")) = jstr ("a b") := by
  refine ⟨?_, by decide, by decide, by decide, by decide, by decide, by decide, by decide⟩
  intro s
  unfold cleanEscapeSequences
  exact trimJs_collapseWs_post _

/-- Helper: `takeWhile`/`dropWhile` on a digit run followed by `;`. -/
theorem takeWhile_digits_semi (p : Nat → Bool) (hp59 : p 59 = false) :
    ∀ ds : JSStr, (∀ d ∈ ds, p d = true) →
      (ds ++ [59]).takeWhile p = ds ∧ (ds ++ [59]).dropWhile p = [59] := by
  intro ds
  induction ds with
  | nil =>
    intro _
    constructor
    · simp [List.takeWhile_cons, hp59]
    · simp [List.dropWhile_cons, hp59]
  | cons d ds1 ih =>
    intro hd
    have hpd : p d = true := hd d (List.mem_cons_self _ _)
    obtain ⟨iht, ihd⟩ := ih (fun e he => hd e (List.mem_cons_of_mem _ he))
    constructor
    · rw [List.cons_append, List.takeWhile_cons_of_pos hpd, iht]
    · rw [List.cons_append, List.dropWhile_cons_of_pos hpd, ihd]

/-- Helper: a single `&`-headed pattern pass leaves `38 :: t` unchanged when
`t` has no `&` and does not start with the pattern tail. -/
theorem replaceLit_amp_once (pat2 rep t : JSStr) (h38 : (38 : Nat) ∉ t)
    (hnp : pat2.isPrefixOf t = false) :
    replaceLit (38 :: pat2) rep (38 :: t) = 38 :: t := by
  unfold replaceLit
  simp only [List.length_cons]
  rw [replaceLitF]
  rw [if_neg]
  · rw [replaceLitF_amp_id pat2 rep t.length t (le_refl _) h38]
  · rintro ⟨-, hpre⟩
    simp only [List.isPrefixOf, Bool.and_eq_true, beq_iff_eq] at hpre
    rw [hnp] at hpre
    exact Bool.false_ne_true hpre.2

/-- Helper: `[59]` is never a prefix of a non-empty digit run plus `;`. -/
theorem not_prefix_semi (ds : JSStr) (hne : ds ≠ [])
    (hd : ∀ d ∈ ds, isDecDigit d = true) :
    ([59] : JSStr).isPrefixOf (ds ++ [59]) = false := by
  rcases ds with _ | ⟨d1, ds1⟩
  · exact absurd rfl hne
  · have h1 : isDecDigit d1 = true := hd d1 (List.mem_cons_self _ _)
    simp only [isDecDigit, Bool.and_eq_true, decide_eq_true_eq] at h1
    have hne1 : (59 : Nat) ≠ d1 := by omega
    rw [List.cons_append]
    simp [List.isPrefixOf, hne1]

/-- Helper: `[57, 59]` is a prefix of a digit run plus `;` only for the run
`[57]`. -/
theorem not_prefix_57_semi (ds : JSStr) (hne : ds ≠ [57])
    (hd : ∀ d ∈ ds, isDecDigit d = true) :
    ([57, 59] : JSStr).isPrefixOf (ds ++ [59]) = false := by
  rcases ds with _ | ⟨d1, ds1⟩
  · decide
  · rw [List.cons_append]
    by_cases h57 : (57 : Nat) = d1
    · subst h57
      have hne1 : ds1 ≠ [] := fun hh => hne (by rw [hh])
      simp only [List.isPrefixOf, beq_self_eq_true, Bool.true_and]
      exact not_prefix_semi ds1 hne1 (fun e he => hd e (List.mem_cons_of_mem _ he))
    · simp [List.isPrefixOf, h57]

/-- Helper: `[51, 57, 59]` is a prefix of a digit run plus `;` only for the
run `[51, 57]` (the `&#39;` named-entity collision). -/
theorem not_prefix_3957_semi (ds : JSStr) (hne : ds ≠ [51, 57])
    (hd : ∀ d ∈ ds, isDecDigit d = true) :
    ([51, 57, 59] : JSStr).isPrefixOf (ds ++ [59]) = false := by
  rcases ds with _ | ⟨d1, ds1⟩
  · decide
  · rw [List.cons_append]
    by_cases h51 : (51 : Nat) = d1
    · subst h51
      have hne1 : ds1 ≠ [57] := fun hh => hne (by rw [hh])
      simp only [List.isPrefixOf, beq_self_eq_true, Bool.true_and]
      exact not_prefix_57_semi ds1 hne1 (fun e he => hd e (List.mem_cons_of_mem _ he))
    · simp [List.isPrefixOf, h51]

/-- Helper: `[48, 51, 57, 59]` is a prefix of a digit run plus `;` only for
the run `[48, 51, 57]` (the `&#039;` named-entity collision). -/
theorem not_prefix_03957_semi (ds : JSStr) (hne : ds ≠ [48, 51, 57])
    (hd : ∀ d ∈ ds, isDecDigit d = true) :
    ([48, 51, 57, 59] : JSStr).isPrefixOf (ds ++ [59]) = false := by
  rcases ds with _ | ⟨d1, ds1⟩
  · decide
  · rw [List.cons_append]
    by_cases h48 : (48 : Nat) = d1
    · subst h48
      have hne1 : ds1 ≠ [51, 57] := fun hh => hne (by rw [hh])
      simp only [List.isPrefixOf, beq_self_eq_true, Bool.true_and]
      exact not_prefix_3957_semi ds1 hne1 (fun e he => hd e (List.mem_cons_of_mem _ he))
    · simp [List.isPrefixOf, h48]

/-- Helper: the hexadecimal pass consumes a full `&#x...;` reference in one
step and emits the decoded code point. -/
theorem decodeHexF_step_hex (x : Nat) (hx : x = 120 ∨ x = 88) (hs : JSStr) (hne : hs ≠ [])
    (hd : ∀ d ∈ hs, isHexDigit d = true) (fuel : Nat) :
    decodeHexF (fuel + 1) (38 :: 35 :: x :: (hs ++ [59])) = fromCodePointJs (parseHex hs) := by
  obtain ⟨htake, hdrop⟩ := takeWhile_digits_semi isHexDigit (by decide) hs hd
  rw [decodeHexF.eq_def]
  dsimp only
  rw [if_pos rfl, if_pos hx, hdrop]
  dsimp only
  rw [htake, if_neg hne]
  rw [show decodeHexF fuel [] = [] from by cases fuel <;> rfl]
  exact List.append_nil _

/-- Helper: the decimal pass consumes a full `&#...;` reference in one step
and emits the decoded code point. -/
theorem decodeDecF_step_dec (ds : JSStr) (hne : ds ≠ [])
    (hd : ∀ d ∈ ds, isDecDigit d = true) (fuel : Nat) :
    decodeDecF (fuel + 1) (38 :: 35 :: (ds ++ [59])) = fromCodePointJs (parseDec ds) := by
  obtain ⟨htake, hdrop⟩ := takeWhile_digits_semi isDecDigit (by decide) ds hd
  rw [decodeDecF.eq_def]
  dsimp only
  rw [if_pos rfl, hdrop]
  dsimp only
  rw [htake, if_neg hne]
  rw [show decodeDecF fuel [] = [] from by cases fuel <;> rfl]
  exact List.append_nil _

/-- Helper: the hexadecimal pass leaves a decimal reference `&#d...;`
unchanged (the `x` position holds a digit, which is neither `x` nor `X`). -/
theorem decodeHexF_skip_dec (d1 : Nat) (ds1 : JSStr) (hd1 : isDecDigit d1 = true)
    (hd : ∀ d ∈ ds1, isDecDigit d = true) (fuel : Nat)
    (hfuel : (35 :: d1 :: (ds1 ++ [59])).length ≤ fuel) :
    decodeHexF (fuel + 1) (38 :: 35 :: d1 :: (ds1 ++ [59])) =
      38 :: 35 :: d1 :: (ds1 ++ [59]) := by
  simp only [isDecDigit, Bool.and_eq_true, decide_eq_true_eq] at hd1
  have h38 : (38 : Nat) ∉ (35 :: d1 :: (ds1 ++ [59])) := by
    intro hmem
    rcases List.mem_cons.mp hmem with h | hmem2
    · omega
    rcases List.mem_cons.mp hmem2 with h | hmem3
    · omega
    rcases List.mem_append.mp hmem3 with h | h
    · have := hd 38 h
      simp [isDecDigit] at this
    · simp at h
  rw [decodeHexF.eq_def]
  dsimp only
  rw [if_pos rfl, if_neg (by omega)]
  rw [decodeHexF_noAmp_id fuel (35 :: d1 :: (ds1 ++ [59])) hfuel h38]

/-- Helper: the decimal pass does not touch the output of a decoded code
point (one unit below 0x10000, a surrogate pair, or the replacement
character — none of which contains an unconsumed `&#...;`). -/
theorem decodeDec_fromCodePoint (v : Nat) : decodeDec (fromCodePointJs v) = fromCodePointJs v := by
  unfold fromCodePointJs
  split
  · by_cases hv : v = 38
    · subst hv
      decide
    · unfold decodeDec
      simp only [List.length_cons, List.length_nil]
      rw [decodeDecF.eq_def]
      dsimp only
      rw [if_neg hv]
      rfl
  · split
    · unfold decodeDec
      simp only [List.length_cons, List.length_nil]
      rw [decodeDecF.eq_def]
      dsimp only
      rw [if_neg (by omega)]
      rw [decodeDecF.eq_def]
      dsimp only
      rw [if_neg (by omega)]
      rfl
    · decide

/-- Helper: appended form of `decodeHexF_skip_dec`. -/
theorem decodeHexF_skip_decStr (ds : JSStr) (hne : ds ≠ [])
    (hd : ∀ d ∈ ds, isDecDigit d = true) (fuel : Nat)
    (hfuel : (35 :: (ds ++ [59])).length ≤ fuel) :
    decodeHexF (fuel + 1) (38 :: 35 :: (ds ++ [59])) = 38 :: 35 :: (ds ++ [59]) := by
  rcases ds with _ | ⟨d1, ds1⟩
  · exact absurd rfl hne
  · simp only [List.cons_append]
    simp only [List.cons_append] at hfuel
    exact decodeHexF_skip_dec d1 ds1 (hd d1 (List.mem_cons_self _ _))
      (fun e he => hd e (List.mem_cons_of_mem _ he)) fuel hfuel

/-- C8: every hexadecimal `&#xH...H;` and decimal `&#N...N;` numeric
character reference decodes to the referenced code point — one UTF-16 unit
for values up to 0xFFFF, a correct surrogate pair for values up to 0x10FFFF
(the beyond-16-bit range), and the Unicode replacement character U+FFFD for
values `String.fromCodePoint` cannot convert (above 0x10FFFF). -/
theorem numeric_entity_refs :
    (∀ (x : Nat) (hs : JSStr), (x = 120 ∨ x = 88) → hs ≠ [] →
      (∀ d ∈ hs, isHexDigit d = true) →
      decodeHtmlEntities (38 :: 35 :: x :: (hs ++ [59])) = fromCodePointJs (parseHex hs)) ∧
    (∀ ds : JSStr, ds ≠ [] → (∀ d ∈ ds, isDecDigit d = true) →
      decodeHtmlEntities (38 :: 35 :: (ds ++ [59])) = fromCodePointJs (parseDec ds)) ∧
    (∀ cp : Nat, 0x10000 ≤ cp → cp ≤ 0x10FFFF →
      ∃ hi lo, fromCodePointJs cp = [hi, lo] ∧
        0xD800 ≤ hi ∧ hi < 0xDC00 ∧ 0xDC00 ≤ lo ∧ lo < 0xE000 ∧
        0x10000 + (hi - 0xD800) * 0x400 + (lo - 0xDC00) = cp) ∧
    (∀ cp : Nat, cp ≤ 0xFFFF → fromCodePointJs cp = [cp]) ∧
    (∀ cp : Nat, 0x10FFFF < cp → fromCodePointJs cp = [0xFFFD]) := by
  refine ⟨?_, ?_, ?_, ?_, ?_⟩
  · intro x hs hx hne hd
    have h38 : (38 : Nat) ∉ (35 :: x :: (hs ++ [59])) := by
      intro hmem
      rcases List.mem_cons.mp hmem with h | hmem2
      · omega
      rcases List.mem_cons.mp hmem2 with h | hmem3
      · rcases hx with rfl | rfl <;> omega
      rcases List.mem_append.mp hmem3 with h | h
      · have := hd 38 h
        simp [isHexDigit] at this
      · simp at h
    have e1 : jstr ("&amp;") = 38 :: [97, 109, 112, 59] := by decide
    have e2 : jstr ("&lt;") = 38 :: [108, 116, 59] := by decide
    have e3 : jstr ("&gt;") = 38 :: [103, 116, 59] := by decide
    have e4 : jstr ("&quot;") = 38 :: [113, 117, 111, 116, 59] := by decide
    have e5 : jstr ("&apos;") = 38 :: [97, 112, 111, 115, 59] := by decide
    have e6 : jstr ("&#039;") = 38 :: [35, 48, 51, 57, 59] := by decide
    have e7 : jstr ("&#39;") = 38 :: [35, 51, 57, 59] := by decide
    have e8 : jstr ("&nbsp;") = 38 :: [110, 98, 115, 112, 59] := by decide
    have hp1 : ([97, 109, 112, 59] : JSStr).isPrefixOf (35 :: x :: (hs ++ [59])) = false := by
      simp [List.isPrefixOf]
    have hp2 : ([108, 116, 59] : JSStr).isPrefixOf (35 :: x :: (hs ++ [59])) = false := by
      simp [List.isPrefixOf]
    have hp3 : ([103, 116, 59] : JSStr).isPrefixOf (35 :: x :: (hs ++ [59])) = false := by
      simp [List.isPrefixOf]
    have hp4 : ([113, 117, 111, 116, 59] : JSStr).isPrefixOf (35 :: x :: (hs ++ [59])) = false := by
      simp [List.isPrefixOf]
    have hp5 : ([97, 112, 111, 115, 59] : JSStr).isPrefixOf (35 :: x :: (hs ++ [59])) = false := by
      simp [List.isPrefixOf]
    have hp6 : ([35, 48, 51, 57, 59] : JSStr).isPrefixOf (35 :: x :: (hs ++ [59])) = false := by
      rcases hx with rfl | rfl <;> simp [List.isPrefixOf]
    have hp7 : ([35, 51, 57, 59] : JSStr).isPrefixOf (35 :: x :: (hs ++ [59])) = false := by
      rcases hx with rfl | rfl <;> simp [List.isPrefixOf]
    have hp8 : ([110, 98, 115, 112, 59] : JSStr).isPrefixOf (35 :: x :: (hs ++ [59])) = false := by
      simp [List.isPrefixOf]
    unfold decodeHtmlEntities
    rw [e1, e2, e3, e4, e5, e6, e7, e8]
    rw [replaceLit_amp_once [97, 109, 112, 59] [38] _ h38 hp1]
    rw [replaceLit_amp_once [108, 116, 59] [60] _ h38 hp2]
    rw [replaceLit_amp_once [103, 116, 59] [62] _ h38 hp3]
    rw [replaceLit_amp_once [113, 117, 111, 116, 59] [34] _ h38 hp4]
    rw [replaceLit_amp_once [97, 112, 111, 115, 59] [39] _ h38 hp5]
    rw [replaceLit_amp_once [35, 48, 51, 57, 59] [39] _ h38 hp6]
    rw [replaceLit_amp_once [35, 51, 57, 59] [39] _ h38 hp7]
    rw [replaceLit_amp_once [110, 98, 115, 112, 59] [32] _ h38 hp8]
    unfold decodeHex
    simp only [List.length_cons]
    rw [decodeHexF_step_hex x hx hs hne hd _]
    rw [decodeDec_fromCodePoint]
  · intro ds hne hd
    by_cases h39 : ds = [51, 57]
    · rw [h39]
      decide
    by_cases h039 : ds = [48, 51, 57]
    · rw [h039]
      decide
    have h38 : (38 : Nat) ∉ (35 :: (ds ++ [59])) := by
      intro hmem
      rcases List.mem_cons.mp hmem with h | hmem2
      · omega
      rcases List.mem_append.mp hmem2 with h | h
      · have := hd 38 h
        simp [isDecDigit] at this
      · simp at h
    have e1 : jstr ("&amp;") = 38 :: [97, 109, 112, 59] := by decide
    have e2 : jstr ("&lt;") = 38 :: [108, 116, 59] := by decide
    have e3 : jstr ("&gt;") = 38 :: [103, 116, 59] := by decide
    have e4 : jstr ("&quot;") = 38 :: [113, 117, 111, 116, 59] := by decide
    have e5 : jstr ("&apos;") = 38 :: [97, 112, 111, 115, 59] := by decide
    have e6 : jstr ("&#039;") = 38 :: [35, 48, 51, 57, 59] := by decide
    have e7 : jstr ("&#39;") = 38 :: [35, 51, 57, 59] := by decide
    have e8 : jstr ("&nbsp;") = 38 :: [110, 98, 115, 112, 59] := by decide
    have hp1 : ([97, 109, 112, 59] : JSStr).isPrefixOf (35 :: (ds ++ [59])) = false := by
      simp [List.isPrefixOf]
    have hp2 : ([108, 116, 59] : JSStr).isPrefixOf (35 :: (ds ++ [59])) = false := by
      simp [List.isPrefixOf]
    have hp3 : ([103, 116, 59] : JSStr).isPrefixOf (35 :: (ds ++ [59])) = false := by
      simp [List.isPrefixOf]
    have hp4 : ([113, 117, 111, 116, 59] : JSStr).isPrefixOf (35 :: (ds ++ [59])) = false := by
      simp [List.isPrefixOf]
    have hp5 : ([97, 112, 111, 115, 59] : JSStr).isPrefixOf (35 :: (ds ++ [59])) = false := by
      simp [List.isPrefixOf]
    have hp6 : ([35, 48, 51, 57, 59] : JSStr).isPrefixOf (35 :: (ds ++ [59])) = false := by
      have hnp := not_prefix_03957_semi ds h039 hd
      simp [List.isPrefixOf, hnp]
    have hp7 : ([35, 51, 57, 59] : JSStr).isPrefixOf (35 :: (ds ++ [59])) = false := by
      have hnp := not_prefix_3957_semi ds h39 hd
      simp [List.isPrefixOf, hnp]
    have hp8 : ([110, 98, 115, 112, 59] : JSStr).isPrefixOf (35 :: (ds ++ [59])) = false := by
      simp [List.isPrefixOf]
    unfold decodeHtmlEntities
    rw [e1, e2, e3, e4, e5, e6, e7, e8]
    rw [replaceLit_amp_once [97, 109, 112, 59] [38] _ h38 hp1]
    rw [replaceLit_amp_once [108, 116, 59] [60] _ h38 hp2]
    rw [replaceLit_amp_once [103, 116, 59] [62] _ h38 hp3]
    rw [replaceLit_amp_once [113, 117, 111, 116, 59] [34] _ h38 hp4]
    rw [replaceLit_amp_once [97, 112, 111, 115, 59] [39] _ h38 hp5]
    rw [replaceLit_amp_once [35, 48, 51, 57, 59] [39] _ h38 hp6]
    rw [replaceLit_amp_once [35, 51, 57, 59] [39] _ h38 hp7]
    rw [replaceLit_amp_once [110, 98, 115, 112, 59] [32] _ h38 hp8]
    unfold decodeHex
    simp only [List.length_cons]
    rw [decodeHexF_skip_decStr ds hne hd _ (by simp)]
    unfold decodeDec
    simp only [List.length_cons]
    rw [decodeDecF_step_dec ds hne hd _]
  · intro cp hlo hhi
    refine ⟨0xD800 + (cp - 0x10000) / 0x400, 0xDC00 + (cp - 0x10000) % 0x400, ?_, ?_, ?_, ?_, ?_, ?_⟩
    · unfold fromCodePointJs
      rw [if_neg (by omega), if_pos (by omega)]
    · omega
    · omega
    · omega
    · omega
    · omega
  · intro cp h
    unfold fromCodePointJs
    rw [if_pos h]
  · intro cp h
    unfold fromCodePointJs
    rw [if_neg (by omega), if_neg (by omega)]

/-- C8 witness: `&#x1F600;` (and `&#128512;`) decode to the single emoji
U+1F600 as a correct surrogate pair, and an out-of-range reference decodes
to U+FFFD. -/
theorem numeric_entity_refs_witness :
    decodeHtmlEntities (38 :: 35 :: 120 :: ([49, 70, 54, 48, 48] ++ [59])) =
      fromCodePointJs (parseHex [49, 70, 54, 48, 48]) ∧
    decodeHtmlEntities (38 :: 35 :: ([49, 50, 56, 53, 49, 50] ++ [59])) =
      fromCodePointJs (parseDec [49, 50, 56, 53, 49, 50]) ∧
    fromCodePointJs 0x1F600 = [0xD83D, 0xDE00] ∧
    decodeHtmlEntities (jstr ("&#x110000;")) = [0xFFFD] :=
  ⟨numeric_entity_refs.1 120 [49, 70, 54, 48, 48] (Or.inl rfl) (by decide) (by decide),
   numeric_entity_refs.2.1 [49, 50, 56, 53, 49, 50] (by decide) (by decide),
   by decide, by decide⟩
